import Mathlib

/-!
Shallow embedding of the trigger-evaluation and dispatch engine of the
`cdp-platform` repository (lambda functions `configure_jobs` and
`workflow_trigger`), together with theorems checking the specification's
claims against it.

Python dictionaries are modelled as association lists with Python's
dict semantics: assignment updates an existing key in place (keeping its
position) or appends a new one, `pop` removes the first matching entry,
`update` folds the second dict's entries into the first.  JSON values are
modelled by the inductive `JVal`.
-/

namespace Cdp

/-- JSON-compatible values (the payloads stored in trigger states,
workflow parameter dictionaries and user settings). -/
inductive JVal where
  | s (v : String)
  | i (v : Int)
  | b (v : Bool)
  | nul
  | arr (l : List JVal)
  | obj (l : List (String × JVal))

/-- Python `==` between a JSON value and a string: true exactly when the
value is an equal string (a list/dict/number/bool/None never equals a
`str`). -/
def JVal.eqStr : JVal → String → Bool
  | .s v, t => v == t
  | _, _ => false

/-- Dictionary lookup (`d.get(k)` / `d[k]`): first entry with the key. -/
def dget {V : Type} (d : List (String × V)) (k : String) : Option V :=
  match d with
  | [] => none
  | (k', v') :: rest => if k' = k then some v' else dget rest k

/-- Dictionary assignment `d[k] = v`: updates an existing key in place
(keeping its position), otherwise appends the new entry at the end. -/
def dinsert {V : Type} (d : List (String × V)) (k : String) (v : V) :
    List (String × V) :=
  match d with
  | [] => [(k, v)]
  | (k', v') :: rest =>
    if k' = k then (k, v) :: rest else (k', v') :: dinsert rest k v

/-- Dictionary removal `d.pop(k)`: drops the first entry with the key.
(Python raises `KeyError` when the key is absent; at every call site in
the source the key is present, so the total model agrees there.) -/
def dremove {V : Type} (d : List (String × V)) (k : String) :
    List (String × V) :=
  match d with
  | [] => []
  | (k', v') :: rest => if k' = k then rest else (k', v') :: dremove rest k

/-- Dictionary merge `d.update(c)`: assigns every entry of `c` into `d`. -/
def dupdate {V : Type} (d c : List (String × V)) : List (String × V) :=
  c.foldl (fun acc kv => dinsert acc kv.1 kv.2) d

/-- The keys of a dictionary. -/
def dkeys {V : Type} (d : List (String × V)) : List String := d.map Prod.fst

@[simp] theorem dget_nil {V : Type} (k : String) :
    dget ([] : List (String × V)) k = none := rfl

@[simp] theorem dget_cons {V : Type} (k' : String) (v' : V) (rest) (k) :
    dget ((k', v') :: rest) k = if k' = k then some v' else dget rest k := rfl

theorem dget_dinsert {V : Type} (d : List (String × V)) (k a : String)
    (v : V) : dget (dinsert d k v) a = if k = a then some v else dget d a := by
  induction d with
  | nil => by_cases h : k = a <;> simp [dinsert, dget, h]
  | cons hd tl ih =>
    obtain ⟨k', v'⟩ := hd
    by_cases hk : k' = k
    · subst hk
      by_cases ha : k' = a <;> simp [dinsert, dget, ha]
    · by_cases ha : k' = a
      · subst ha
        have hka : ¬ k = k' := fun h => hk h.symm
        simp [dinsert, dget, hk, hka]
      · simp [dinsert, dget, hk, ha, ih]

theorem dget_eq_none_of_not_mem {V : Type} (d : List (String × V)) (a : String)
    (h : a ∉ dkeys d) : dget d a = none := by
  induction d with
  | nil => rfl
  | cons hd tl ih =>
    obtain ⟨k', v'⟩ := hd
    simp only [dkeys, List.map_cons, List.mem_cons, not_or] at h
    simp [Ne.symm h.1, ih h.2]

theorem dget_dremove {V : Type} (d : List (String × V)) (k a : String)
    (hnd : (dkeys d).Nodup) :
    dget (dremove d k) a = if k = a then none else dget d a := by
  induction d with
  | nil => simp [dremove]
  | cons hd tl ih =>
    obtain ⟨k', v'⟩ := hd
    simp only [dkeys, List.map_cons, List.nodup_cons] at hnd
    by_cases hk : k' = k
    · subst hk
      by_cases ha : k' = a
      · subst ha
        simp [dremove, dget_eq_none_of_not_mem tl k' (by simpa [dkeys] using hnd.1)]
      · simp [dremove, dget, ha]
    · by_cases ha : k' = a
      · subst ha
        have hka : ¬ k = k' := fun h => hk h.symm
        simp [dremove, dget, hk, hka]
      · simp [dremove, dget, hk, ha, ih hnd.2]

theorem dkeys_dinsert {V : Type} (d : List (String × V)) (k : String) (v : V) :
    dkeys (dinsert d k v) = if k ∈ dkeys d then dkeys d else dkeys d ++ [k] := by
  induction d with
  | nil => simp [dinsert, dkeys]
  | cons hd tl ih =>
    obtain ⟨k', v'⟩ := hd
    by_cases hk : k' = k
    · subst hk
      simp [dinsert, dkeys]
    · have hk' : ¬ k = k' := fun h => hk h.symm
      have ihm := ih
      simp only [dkeys] at ihm ⊢
      by_cases hm : k ∈ List.map Prod.fst tl <;>
        simp [dinsert, hk, hk', hm, ihm]

theorem nodup_dkeys_dinsert {V : Type} (d : List (String × V)) (k : String)
    (v : V) (h : (dkeys d).Nodup) : (dkeys (dinsert d k v)).Nodup := by
  rw [dkeys_dinsert]
  by_cases hm : k ∈ dkeys d
  · simpa [hm]
  · simpa [hm] using List.Nodup.append h (by simp) (by simpa using hm)

theorem dget_dupdate {V : Type} (d c : List (String × V)) (a : String)
    (hnd : (dkeys c).Nodup) :
    dget (dupdate d c) a = (dget c a).or (dget d a) := by
  induction c generalizing d with
  | nil => simp [dupdate, dget]
  | cons hd tl ih =>
    obtain ⟨k, v⟩ := hd
    simp only [dkeys, List.map_cons, List.nodup_cons] at hnd
    have step : dupdate d ((k, v) :: tl) = dupdate (dinsert d k v) tl := rfl
    rw [step, ih _ hnd.2]
    by_cases hk : k = a
    · subst hk
      have htl : dget tl k = none :=
        dget_eq_none_of_not_mem tl k (by simpa [dkeys] using hnd.1)
      simp [dget, htl, dget_dinsert]
    · have hk' : ¬ k = a := hk
      simp [dget, hk', dget_dinsert]

/-!
### `src/lambda_functions/workflow_trigger/workflow_trigger.py`
-/

/-- Duplicate removal keeping first occurrences (the effect of going
through a Python `set`; Python's set iteration order is unspecified, so
only membership in the result is meaningful). -/
def pyDistinctAux {α : Type} [BEq α] (seen : List α) : List α → List α
  | [] => []
  | x :: xs =>
    if seen.contains x then pyDistinctAux seen xs
    else x :: pyDistinctAux (x :: seen) xs

/-- Duplicate removal keeping first occurrences. -/
def pyDistinct {α : Type} [BEq α] (l : List α) : List α := pyDistinctAux [] l

/-- Byte-wise string comparison (Python's `<=` on `str`, restricted to
the code-point comparison both use on these inputs). -/
def charListLe : List Char → List Char → Bool
  | [], _ => true
  | _ :: _, [] => false
  | a :: as, b :: bs =>
    a.val < b.val || (a == b && charListLe as bs)

/-- Insert into a sorted list (helper of `pySortStrings`). -/
def insertSorted (x : String) : List String → List String
  | [] => [x]
  | y :: ys =>
    if charListLe x.toList y.toList then x :: y :: ys
    else y :: insertSorted x ys

/-- Python `sorted` on a list of strings (insertion sort; stability is
irrelevant after deduplication). -/
def pySortStrings : List String → List String
  | [] => []
  | x :: xs => insertSorted x (pySortStrings xs)

/-- Python `s.endswith(suffix)`. -/
def pyEndsWith (s suffix : String) : Bool :=
  suffix.toList.isSuffixOf s.toList

/-!
Model of `fnmatch.fnmatch` for patterns built from literal characters,
`?` and `*` (no bracket expression occurs in this repository's
selectors; on Linux `os.path.normcase` is the identity, so there is no
case folding).  The matcher is a standard NFA simulation over pattern
suffixes, which is equivalent to `fnmatch`'s regex translation for this
pattern fragment and is structurally recursive (hence executable by
definitional reduction).
-/

/-- Pattern suffixes reachable without consuming a character (skipping
leading `*`s). -/
def globClosure : List Char → List (List Char)
  | '*' :: ps => ('*' :: ps) :: globClosure ps
  | ps => [ps]

/-- One-character transition of a pattern state. -/
def globStep (c : Char) : List Char → List (List Char)
  | [] => []
  | '*' :: ps => globClosure ('*' :: ps)
  | '?' :: ps => globClosure ps
  | d :: ps => if d == c then globClosure ps else []

/-- A pattern state accepts the empty remainder iff only `*`s remain. -/
def globNullable : List Char → Bool
  | [] => true
  | '*' :: ps => globNullable ps
  | _ => false

/-- Glob matching: run the state set over the text. -/
def globMatch (pattern text : List Char) : Bool :=
  (text.foldl
    (fun states c => pyDistinct (states.flatMap (globStep c)))
    (globClosure pattern)).any globNullable

/-- `fnmatch.fnmatch(path, pattern)`. -/
def fnmatch (path pattern : String) : Bool :=
  globMatch pattern.toList path.toList

/-- Python `sub in s` on strings (substring test): `sub` occurs at some
position of `s`. -/
def containsSubAux (sub : List Char) : List Char → Bool
  | [] => sub.isEmpty
  | c :: ts => sub.isPrefixOf (c :: ts) || containsSubAux sub ts

/-- Python `sub in s` on strings (substring test). -/
def containsSub (sub s : String) : Bool :=
  containsSubAux sub.toList s.toList

/-- The fields of `ics.types.user_types.WorkflowInvocationSettings` used by
`workflow_trigger.py`: a name template, a target state-machine ARN and a
JSON parameter blob.  The JSON string `parameters` is modelled by its
parsed dictionary (`json.loads`/`json.dumps` round trips are the identity
on this model). -/
structure WorkflowInvocationSettings where
  name : Option String
  arn : String
  parameters : List (String × JVal)

/-- `UploadTriggerSettings`. -/
structure UploadTriggerSettings where
  file_selector : String
  ignore_snowflake_data_files : Bool := true
  workflow_settings : WorkflowInvocationSettings
  check_only : Bool := false

/-- `UploadTriggerSettings.get_matching_paths`. -/
def UploadTriggerSettings.get_matching_paths (self : UploadTriggerSettings)
    (path_list : List String) : List String :=
  let selected_path_list :=
    path_list.filter (fun path => fnmatch path self.file_selector)
  if !self.ignore_snowflake_data_files then selected_path_list
  else selected_path_list.filter (fun path =>
    !(containsSub "/snowflake/" path) ||
      pyEndsWith path "last_query_id.parquet")

/-- `_start_step_functions`, with the downstream engine call
`_start_step_function` as an explicit parameter `engine` (it either
returns an execution ARN or raises).  Returns the attempt trace, the
collected execution ARNs and the collected failed settings, in input
order. -/
def startStepFunctionsTrace (engine : WorkflowInvocationSettings → Except String String) :
    List WorkflowInvocationSettings →
    List WorkflowInvocationSettings × List String × List WorkflowInvocationSettings
  | [] => ([], [], [])
  | ws :: rest =>
    match engine ws with
    | .ok arn =>
      let (att, res, errs) := startStepFunctionsTrace engine rest
      (ws :: att, arn :: res, errs)
    | .error _ =>
      let (att, res, errs) := startStepFunctionsTrace engine rest
      (ws :: att, res, ws :: errs)

/-- `_start_step_functions`: raises a single `RuntimeError` naming the
failed settings after every attempt, otherwise returns the ARN list. -/
def startStepFunctions (engine : WorkflowInvocationSettings → Except String String)
    (invocation_list : List WorkflowInvocationSettings) :
    Except (List WorkflowInvocationSettings) (List String) :=
  let (_, result, error_list) := startStepFunctionsTrace engine invocation_list
  if error_list.isEmpty then .ok result else .error error_list

/-- `UploadDBEntry` (from `ics.types.workflow_types`): an upload path with
its upload timestamp; timestamps are modelled as integers (seconds). -/
structure UploadDBEntry where
  upload_path : String
  upload_time : Int

/-- Python `sorted(set(l))` on strings: distinct elements in ascending
order. -/
def pySortedSet (l : List String) : List String :=
  pySortStrings (pyDistinct l)

/-- `_select_upload_paths`; `datetime.datetime.now` is the explicit
parameter `current_time`. -/
def selectUploadPaths (current_time : Int) (upload_window_seconds : Nat)
    (upload_entry_list : List UploadDBEntry) : List String :=
  match upload_entry_list with
  | [] => []
  | e :: rest =>
    let time_of_last_upload :=
      rest.foldl (fun m x => max m x.upload_time) e.upload_time
    if current_time - time_of_last_upload > (upload_window_seconds : Int) then
      pySortedSet ((e :: rest).map (·.upload_path))
    else []

/-- Python `key[:-2]`: the string without its last two characters. -/
def pyStrip2 (s : String) : String :=
  String.mk s.toList.dropLast.dropLast

/-- The body of the inner loop of `_replace_invocation_parameters` for
one `kwargs` entry `kw`: if the snapshot value of the marker key equals
`"$." + kwargs_key`, pop the marker key from the live dictionary and
assign the bound value under the stripped key. -/
def substituteOne (key : String) (value : JVal)
    (acc : List (String × JVal)) (kw : String × JVal) :
    List (String × JVal) :=
  if value.eqStr ("$." ++ kw.1) then
    dinsert (dremove acc key) (pyStrip2 key) kw.2
  else acc

/-- The body of the outer loop of `_replace_invocation_parameters` for
one snapshot item `kv`: marker keys (ending in `".$"`) run the inner
loop over `kwargs`, other keys are left alone. -/
def substituteKey (kwargs : List (String × JVal))
    (acc : List (String × JVal)) (kv : String × JVal) :
    List (String × JVal) :=
  if pyEndsWith kv.1 ".$" then
    kwargs.foldl (substituteOne kv.1 kv.2) acc
  else acc

/-- `_replace_invocation_parameters` (the Python function mutates
`result.parameters` in place; the model returns the updated settings).
The iteration runs over the snapshot `list(workflow_parameters.items())`
while `pop`/assignment apply to the live dictionary, exactly as in the
source. -/
def replaceInvocationParameters (result : WorkflowInvocationSettings)
    (kwargs : List (String × JVal)) : WorkflowInvocationSettings :=
  let workflow_parameters := result.parameters
  let params := workflow_parameters.foldl (substituteKey kwargs)
    workflow_parameters
  { result with parameters := params }

/-- Python `value or default` for an optional string field (both `None`
and the empty string fall back to the default). -/
def pyOrStr (v : Option String) (dflt : String) : String :=
  match v with
  | none => dflt
  | some st => if st = "" then dflt else st

/-- One iteration of the loop of `_get_invocation_list_for_uploads` for
one `upload_config` rule, acting on the already-processed rule list, the
check-only list and the invocation list.  The Python loop mutates a
matched rule's `workflow_settings` in place; the model returns the
(possibly rewritten) rule in the threaded rule list, so the effect on
the configuration is observable. -/
def uploadTriggerStep (formatName : String → String)
    (upload_path_list : List String)
    (acc : List UploadTriggerSettings ×
      List WorkflowInvocationSettings × List WorkflowInvocationSettings)
    (upload_config : UploadTriggerSettings) :
    List UploadTriggerSettings × List WorkflowInvocationSettings ×
      List WorkflowInvocationSettings :=
  let (rules, check_only_list, invocation_list) := acc
  let matching_path_list := upload_config.get_matching_paths upload_path_list
  if matching_path_list.isEmpty then
    (rules ++ [upload_config], check_only_list, invocation_list)
  else
    let ws := replaceInvocationParameters upload_config.workflow_settings
      [("matching_path_list", JVal.arr (matching_path_list.map JVal.s)),
       ("upload_path_list", JVal.arr (upload_path_list.map JVal.s))]
    let upload_config' := { upload_config with workflow_settings := ws }
    let workflow_name := pyOrStr ws.name "{uuid}"
    let modified : WorkflowInvocationSettings :=
      { name := some (formatName workflow_name), arn := ws.arn,
        parameters := ws.parameters }
    if upload_config.check_only then
      (rules ++ [upload_config'], check_only_list ++ [modified],
       invocation_list)
    else
      (rules ++ [upload_config'], check_only_list,
       invocation_list ++ [modified])

/-- `_get_invocation_list_for_uploads`.  `_format_workflow_name` depends
on wall-clock time and `uuid4`, so it is the parameter `formatName`. -/
def getInvocationListForUploads (formatName : String → String)
    (upload_triggers : List UploadTriggerSettings)
    (upload_path_list : List String) :
    List UploadTriggerSettings × List WorkflowInvocationSettings ×
      List WorkflowInvocationSettings :=
  let (rules, check_only_list, invocation_list) :=
    upload_triggers.foldl (uploadTriggerStep formatName upload_path_list)
      ([], [], [])
  let check_only_val := JVal.arr (check_only_list.map (fun c =>
    JVal.obj [("name", JVal.s (c.name.getD "")), ("arn", JVal.s c.arn),
              ("parameters", JVal.obj c.parameters)]))
  let spliced := invocation_list.map (fun ws =>
    replaceInvocationParameters ws [("check_only_workflows", check_only_val)])
  (rules, check_only_list, spliced)

/-!
### `src/lambda_functions/configure_jobs`
(`user_config.py`, `task_config.py`, `lambda_config.py`, `invoke_via_sfn.py`)
-/

abbrev TaskName := String

/-- `UserTaskConfig` (`user_config.py`); argument and kwarg values are
JSON scalars, modelled by `JVal`; the dictionaries are association
lists. -/
structure UserTaskConfig where
  arguments : Option (List JVal) := none
  environment : Option (List (String × String)) := none
  kwargs : Option (List (String × JVal)) := none

/-- Python `x or y` for an optional collection field: `None` and the
empty collection are both falsy. -/
def pyOrList {α : Type} (x y : Option (List α)) : Option (List α) :=
  match x with
  | none => y
  | some l => if l.isEmpty then y else some l

/-- `UserTaskConfig.combine`. -/
def UserTaskConfig.combine (self : UserTaskConfig)
    (default_arguments : Option (List JVal) := none)
    (default_environment : Option (List (String × String)) := none)
    (default_kwargs : Option (List (String × JVal)) := none) :
    UserTaskConfig :=
  { arguments := pyOrList self.arguments default_arguments,
    environment := pyOrList self.environment default_environment,
    kwargs := pyOrList self.kwargs default_kwargs }

/-- `TaskRunConfig` (`task_config.py`). -/
structure TaskRunConfig where
  default : Bool := false
  enabled_account_names : Option (List String) := none
  enabled_scopes : Option (List String) := none
  frequency : List (String × JVal) := []

/-- `TaskConfig` (`task_config.py`). -/
structure TaskConfig where
  arguments : List String := []
  cwd : String := "."
  entry_point : String := "script.py"
  environment : List (String × String) := []
  kwargs : List (String × String) := []
  python_lib_dirs : List String := []
  requirements : List String := []
  run : TaskRunConfig := {}

/-- `LambdaConfig` (`lambda_config.py`); `config_file_dir` is absorbed
into the task-config loader parameter of the functions below. -/
structure LambdaConfig where
  account_name : String
  allowed_tasks : List TaskName
  cdp_tools_wheel : String
  preprocessing_database_name : String
  run_db_key : String
  run_db_table : String
  scope : String
  task_env : List (String × String)

/-- `UserConfig` (`invoke_via_sfn.py`); the log-only metadata fields
`comment` and `started_by` are omitted. -/
structure UserConfig where
  check_schedule : Option Bool := none
  settings : Option (List (TaskName × UserTaskConfig)) := none
  tasks : Option (List TaskName) := none
  update_run_db : Bool := true

/-- `UserConfig.get_task_list`: `None` when the user supplied neither
`settings` nor `tasks`, otherwise the union of the task list and the
settings keys (a Python `set`, modelled as a duplicate-free list; the
set's iteration order is unspecified in Python, so only the membership
of the result is meaningful). -/
def UserConfig.get_task_list (self : UserConfig) : Option (List TaskName) :=
  match self.settings, self.tasks with
  | none, none => none
  | _, _ =>
    some (pyDistinct ((self.tasks.getD []) ++
      (self.settings.getD []).map Prod.fst))

/-- `UserConfig.get_check_schedule`. -/
def UserConfig.get_check_schedule (self : UserConfig) : Bool :=
  match self.check_schedule with
  | none => self.get_task_list.isNone
  | some b => b

/-- A task's frequency plugin (class `FrequencyBase` of the external
`ics` package; its code is not part of this repository).  The DB context
and the run-DB key passed by the caller are fixed for a whole round and
absorbed into the closures.  `trigger` may raise (`Except.error`); it
receives `copy.deepcopy` of the state, so any mutation it performs is
invisible to the caller and it can be modelled as a function.
`reload_trigger` returns the new state to persist. -/
structure FrequencyBase where
  trigger : List (String × JVal) → Except String Bool
  reload_trigger : List (String × JVal) → List (String × JVal)

/-- A task's trigger state: an opaque JSON dictionary. -/
abbrev TState := List (String × JVal)

/-- The run-DB item for a run-scope key: a flat DynamoDB item whose
`workflow` attribute is the partition key (a string) and whose remaining
attributes are the per-task `TriggerState` slices; the partition key is
modelled as a separate field. -/
structure RunStateRecord where
  workflow : Option String := none
  tasks : List (TaskName × TState) := []

/-- One iteration of the loop in `SFNPayload._get_triggered_tasks` for a
`(task_name, task_frequency_plugin)` pair, acting on the in-memory copy
of the run-DB entry and the accumulated fired list.  The in-place update
`task_frequency_state['use_case_name'] = task_name` is visible in the
copy exactly when the task already has a slice there (otherwise
`dict.get` produced a fresh `{}` that is not aliased with the copy). -/
def evalTaskStep (update_run_db : Bool)
    (acc : List (TaskName × TState) × List TaskName)
    (task_name : TaskName) (task_frequency_plugin : FrequencyBase) :
    List (TaskName × TState) × List TaskName :=
  let (run_db_entry_copy, result) := acc
  let task_frequency_state := (dget run_db_entry_copy task_name).getD []
  let task_frequency_state :=
    dinsert task_frequency_state "use_case_name" (JVal.s task_name)
  let run_db_entry_copy :=
    if (dget run_db_entry_copy task_name).isSome then
      dinsert run_db_entry_copy task_name task_frequency_state
    else run_db_entry_copy
  match task_frequency_plugin.trigger task_frequency_state with
  | .error _ => (run_db_entry_copy, result)
  | .ok false => (run_db_entry_copy, result)
  | .ok true =>
    let result := result ++ [task_name]
    if !update_run_db then (run_db_entry_copy, result)
    else
      (dinsert run_db_entry_copy task_name
        (task_frequency_plugin.reload_trigger task_frequency_state), result)

/-- The loop of `SFNPayload._get_triggered_tasks` over the plugin map
(`copy.deepcopy` of the entry is the entry itself in this pure model),
returning the final in-memory copy and the fired task list. -/
def getTriggeredTasksLoop (update_run_db : Bool)
    (task_plugin_map : List (TaskName × FrequencyBase))
    (run_db_entry : List (TaskName × TState)) :
    List (TaskName × TState) × List TaskName :=
  task_plugin_map.foldl
    (fun acc item => evalTaskStep update_run_db acc item.1 item.2)
    (run_db_entry, [])

/-- `SFNPayload._get_triggered_tasks` combined with the
`_get_run_db_table` context manager: the record is fetched with a
consistent read, a deep copy is evaluated, the copy is transferred into
the persistent entry with `dict.update`, the `workflow` partition key is
`setdefault`-ed to the run-DB key, and the whole record is written back
in one `put_item`.  Returns the committed record and the fired list. -/
def getTriggeredTasks (run_db_key : String) (update_run_db : Bool)
    (task_plugin_map : List (TaskName × FrequencyBase))
    (record : RunStateRecord) : RunStateRecord × List TaskName :=
  let lr := getTriggeredTasksLoop update_run_db task_plugin_map record.tasks
  ({ workflow := some (record.workflow.getD run_db_key),
     tasks := dupdate record.tasks lr.1 }, lr.2)

/-- `SFNPayload._check_in_optional_list`. -/
def checkInOptionalList (value : String)
    (optional_list : Option (List String)) (dflt : Bool := true) : Bool :=
  match optional_list with
  | none => dflt
  | some l => l.contains value

/-- `SFNPayload._check_run_config` (logging dropped). -/
def checkRunConfig (lambda_config : LambdaConfig)
    (task_config : TaskConfig) : Bool :=
  checkInOptionalList lambda_config.scope task_config.run.enabled_scopes &&
  checkInOptionalList lambda_config.account_name
    task_config.run.enabled_account_names

/-- One iteration of the plugin-map construction in
`SFNPayload._get_scheduled_tasks` for one `(task_name, task_config)`
entry: skip tasks whose run config does not apply, whose frequency
plugin fails to load, or that are neither user-specified nor
default-enabled. -/
def schedulePluginStep
    (plugin_loader : List (String × JVal) → Except String FrequencyBase)
    (lambda_config : LambdaConfig) (is_user_specified_task : Bool)
    (acc : List (TaskName × FrequencyBase))
    (item : TaskName × TaskConfig) : List (TaskName × FrequencyBase) :=
  if !(checkRunConfig lambda_config item.2) then acc
  else
    match plugin_loader item.2.run.frequency with
    | .error _ => acc
    | .ok task_frequency_plugin =>
      if is_user_specified_task || item.2.run.default then
        acc ++ [(item.1, task_frequency_plugin)]
      else acc

/-- `SFNPayload._get_scheduled_tasks`.  `PluginLoader.load` is the
parameter `plugin_loader` (it may raise, which the source catches and
skips the task).  Builds the policy-evaluation map, then runs the
trigger loop. -/
def getScheduledTasks
    (plugin_loader : List (String × JVal) → Except String FrequencyBase)
    (user_config : UserConfig) (lambda_config : LambdaConfig)
    (task_config_map : List (TaskName × TaskConfig))
    (record : RunStateRecord) : RunStateRecord × List TaskName :=
  let is_user_specified_task := user_config.get_task_list.isSome
  let task_plugin_map := task_config_map.foldl
    (schedulePluginStep plugin_loader lambda_config is_user_specified_task) []
  getTriggeredTasks lambda_config.run_db_key user_config.update_run_db
    task_plugin_map record

/-- `SFNPayload._get_task_candidates`; a user-requested task outside the
allowed set raises `ValueError` (the spec's `ConfigurationError`). -/
def getTaskCandidates (user_config : UserConfig)
    (lambda_config : LambdaConfig) : Except String (List TaskName) :=
  match user_config.get_task_list with
  | some user_tasks =>
    if user_tasks.any (fun t => !(lambda_config.allowed_tasks.contains t)) then
      .error "Invalid tasks selected"
    else .ok user_tasks
  | none => .ok lambda_config.allowed_tasks

/-- `SFNPayload._get_task_config_map`; `load_task_config` is the
parameter `load`: it yields `none` when the config file is absent,
unreadable, or fails validation (`load_task_config` catches every such
error and returns `None`). -/
def getTaskConfigMap (load : TaskName → Option TaskConfig)
    (task_name_list : List TaskName) : List (TaskName × TaskConfig) :=
  task_name_list.foldl (fun result task_name =>
    match load task_name with
    | some task_config => result ++ [(task_name, task_config)]
    | none => result) []

/-- `JobInfo` (`invoke_via_sfn.py`). -/
structure JobInfo where
  additional_python_modules : String
  job_name : String
  task_name : TaskName
  user_task_config : UserTaskConfig

/-- `SFNOutputEvent`. -/
structure SFNOutputEvent where
  job_list : List JobInfo

/-- The fields of `SFNPayload` that `process` uses (`mode` is a fixed
literal). -/
structure SFNPayload where
  job_name_map : List (String × String)
  user_config : UserConfig

/-- `SFNPayload._get_job_info`; the lookup `job_name_map['python']`
raises `KeyError` when the key is absent, hence the `Option` result. -/
def getJobInfo (payload : SFNPayload) (lambda_config : LambdaConfig)
    (task_name : TaskName) (task_config : TaskConfig) : Option JobInfo :=
  let task_req_list :=
    task_config.requirements ++ [lambda_config.cdp_tools_wheel]
  let user_settings := payload.user_config.settings.getD []
  let user_task_config := (dget user_settings task_name).getD {}
  (dget payload.job_name_map "python").map (fun job_name =>
    { additional_python_modules := String.intercalate "," task_req_list,
      job_name := job_name, task_name := task_name,
      user_task_config := user_task_config })

/-- `SFNPayload.process`.  `load` models `load_task_config` for the
deployment's config directory, `plugin_loader` models
`PluginLoader().load`, and `record` is the run-DB item read by
`_get_run_db_table`.  Returns the output event together with the
committed run-DB record (the record is untouched when the schedule is
not checked).  A `ValueError` from the candidate check or a `KeyError`
from `task_config_map[task_name]` / `job_name_map['python']` surfaces as
`Except.error`. -/
def process (load : TaskName → Option TaskConfig)
    (plugin_loader : List (String × JVal) → Except String FrequencyBase)
    (record : RunStateRecord) (payload : SFNPayload)
    (lambda_config : LambdaConfig) :
    Except String (SFNOutputEvent × RunStateRecord) :=
  match getTaskCandidates payload.user_config lambda_config with
  | .error e => .error e
  | .ok candidate_task_list =>
    let task_config_map := getTaskConfigMap load candidate_task_list
    let sel_rec :=
      if payload.user_config.get_check_schedule then
        let rs := getScheduledTasks plugin_loader payload.user_config
          lambda_config task_config_map record
        (rs.2, rs.1)
      else (task_config_map.map Prod.fst, record)
    let selected_task_list := sel_rec.1
    let record' := sel_rec.2
    let sorted_sel := pySortStrings selected_task_list
    let build := fun (task_name : TaskName) =>
      match dget task_config_map task_name with
      | none => none
      | some task_config =>
        getJobInfo payload lambda_config task_name task_config
    if sorted_sel.all (fun t => (build t).isSome) then
      .ok ({ job_list := sorted_sel.filterMap build }, record')
    else .error "KeyError"

/-!
### Utility lemmas about the Python-collection models
-/

theorem mem_pyDistinctAux {α : Type} [BEq α] [LawfulBEq α] (l : List α)
    (seen : List α) (x : α) :
    x ∈ pyDistinctAux seen l ↔ x ∈ l ∧ x ∉ seen := by
  induction l generalizing seen with
  | nil => simp [pyDistinctAux]
  | cons hd tl ih =>
    by_cases hm : seen.contains hd
    · have hhd : hd ∈ seen := by simpa using hm
      simp only [pyDistinctAux, if_pos hm, ih, List.mem_cons]
      constructor
      · exact fun h => ⟨Or.inr h.1, h.2⟩
      · rintro ⟨hx | hx, hs⟩
        · exact absurd (hx ▸ hhd) hs
        · exact ⟨hx, hs⟩
    · have hhd : hd ∉ seen := by simpa using hm
      simp only [pyDistinctAux, if_neg hm, List.mem_cons, ih, List.mem_cons]
      constructor
      · rintro (hx | ⟨hx, hs⟩)
        · exact ⟨Or.inl hx, hx ▸ hhd⟩
        · exact ⟨Or.inr hx, fun hc => hs (Or.inr hc)⟩
      · rintro ⟨hx | hx, hs⟩
        · exact Or.inl hx
        · by_cases hxh : x = hd
          · exact Or.inl hxh
          · exact Or.inr ⟨hx, fun hc => (by
              rcases hc with hc | hc
              · exact hxh hc
              · exact hs hc)⟩

theorem mem_pyDistinct {α : Type} [BEq α] [LawfulBEq α] (l : List α) (x : α) :
    x ∈ pyDistinct l ↔ x ∈ l := by
  simp [pyDistinct, mem_pyDistinctAux]

theorem nodup_pyDistinctAux {α : Type} [BEq α] [LawfulBEq α] (l : List α)
    (seen : List α) : (pyDistinctAux seen l).Nodup := by
  induction l generalizing seen with
  | nil => simp [pyDistinctAux]
  | cons hd tl ih =>
    by_cases hm : seen.contains hd
    · simp only [pyDistinctAux, if_pos hm]
      exact ih seen
    · simp only [pyDistinctAux, if_neg hm, List.nodup_cons]
      exact ⟨fun hc => ((mem_pyDistinctAux tl (hd :: seen) hd).mp hc).2
        (List.mem_cons_self hd seen), ih (hd :: seen)⟩

theorem nodup_pyDistinct {α : Type} [BEq α] [LawfulBEq α] (l : List α) :
    (pyDistinct l).Nodup := nodup_pyDistinctAux l []

theorem insertSorted_perm (x : String) (l : List String) :
    (insertSorted x l).Perm (x :: l) := by
  induction l with
  | nil => simp [insertSorted]
  | cons y ys ih =>
    by_cases h : charListLe x.toList y.toList
    · simp only [insertSorted, if_pos h]
      exact List.Perm.refl _
    · simp only [insertSorted, if_neg h]
      exact (ih.cons y).trans (List.Perm.swap x y ys)

theorem pySortStrings_perm (l : List String) :
    (pySortStrings l).Perm l := by
  induction l with
  | nil => simp [pySortStrings]
  | cons x xs ih =>
    exact (insertSorted_perm x (pySortStrings xs)).trans (ih.cons x)

theorem mem_pySortStrings (l : List String) (x : String) :
    x ∈ pySortStrings l ↔ x ∈ l :=
  (pySortStrings_perm l).mem_iff

theorem mem_dkeys_of_dget_eq_some {V : Type} (d : List (String × V))
    (x : String) (v : V) (h : dget d x = some v) : x ∈ dkeys d := by
  induction d with
  | nil => simp [dget] at h
  | cons hd tl ih =>
    obtain ⟨k', v'⟩ := hd
    by_cases hk : k' = x
    · simp [dkeys, hk]
    · simp only [dget_cons, if_neg hk] at h
      simp [dkeys, Or.inr (by simpa [dkeys] using ih h)]

theorem dget_isSome_of_mem_dkeys {V : Type} (d : List (String × V))
    (x : String) (h : x ∈ dkeys d) : (dget d x).isSome := by
  induction d with
  | nil => simp [dkeys] at h
  | cons hd tl ih =>
    obtain ⟨k', v'⟩ := hd
    by_cases hk : k' = x
    · simp [dget, hk]
    · simp only [dkeys, List.map_cons, List.mem_cons] at h
      rcases h with h | h
      · exact absurd h.symm hk
      · simpa [dget, hk] using ih (by simpa [dkeys] using h)

/-!
### Claim theorems
-/

theorem pyOrList_spec {α : Type} (x y : Option (List α)) :
    (∀ l, x = some l → l ≠ [] → pyOrList x y = some l) ∧
    ((x = none ∨ x = some []) → pyOrList x y = y) ∧
    (pyOrList x y = x ∨ pyOrList x y = y) := by
  rcases x with _ | l
  · simp [pyOrList]
  · rcases l with _ | ⟨a, l'⟩
    · simp [pyOrList]
    · simp [pyOrList]

/-- C8: combining a user override with task-config defaults yields, for
each of `arguments`, `environment` and `kwargs` independently, the
override value when it is non-empty and the default otherwise; an
override supplying an empty collection behaves exactly as if the field
were not supplied; and the merged field is always wholly one of the two
inputs (no deep merge of the collections occurs). -/
theorem combine_override_wins (self : UserTaskConfig)
    (da : Option (List JVal)) (de : Option (List (String × String)))
    (dk : Option (List (String × JVal))) :
    (∀ l, self.arguments = some l → l ≠ [] →
      (self.combine da de dk).arguments = some l) ∧
    ((self.arguments = none ∨ self.arguments = some []) →
      (self.combine da de dk).arguments = da) ∧
    (∀ l, self.environment = some l → l ≠ [] →
      (self.combine da de dk).environment = some l) ∧
    ((self.environment = none ∨ self.environment = some []) →
      (self.combine da de dk).environment = de) ∧
    (∀ l, self.kwargs = some l → l ≠ [] →
      (self.combine da de dk).kwargs = some l) ∧
    ((self.kwargs = none ∨ self.kwargs = some []) →
      (self.combine da de dk).kwargs = dk) ∧
    (({ arguments := some [], environment := some [], kwargs := some [] } :
        UserTaskConfig).combine da de dk =
      ({} : UserTaskConfig).combine da de dk) ∧
    ((self.combine da de dk).arguments = self.arguments ∨
      (self.combine da de dk).arguments = da) ∧
    ((self.combine da de dk).environment = self.environment ∨
      (self.combine da de dk).environment = de) ∧
    ((self.combine da de dk).kwargs = self.kwargs ∨
      (self.combine da de dk).kwargs = dk) := by
  obtain ⟨ha1, ha2, ha3⟩ := pyOrList_spec self.arguments da
  obtain ⟨he1, he2, he3⟩ := pyOrList_spec self.environment de
  obtain ⟨hk1, hk2, hk3⟩ := pyOrList_spec self.kwargs dk
  refine ⟨ha1, ha2, he1, he2, hk1, hk2, rfl, ha3, he3, hk3⟩

/-- Witness for C8 at a concrete override (non-empty `arguments`, empty
`environment`, missing `kwargs`). -/
theorem combine_override_wins_witness :
    (({ arguments := some [JVal.i 1] , environment := some [],
        kwargs := none } : UserTaskConfig).combine
      (some [JVal.i 2]) (some [("E", "v")])
      (some [("k", JVal.s "x")])).arguments = some [JVal.i 1] ∧
    (({ arguments := some [JVal.i 1] , environment := some [],
        kwargs := none } : UserTaskConfig).combine
      (some [JVal.i 2]) (some [("E", "v")])
      (some [("k", JVal.s "x")])).environment = some [("E", "v")] ∧
    (({ arguments := some [JVal.i 1] , environment := some [],
        kwargs := none } : UserTaskConfig).combine
      (some [JVal.i 2]) (some [("E", "v")])
      (some [("k", JVal.s "x")])).kwargs = some [("k", JVal.s "x")] := by
  obtain ⟨h1, h2, h3, h4, h5, h6, h7, h8, h9, h10⟩ :=
    combine_override_wins
      { arguments := some [JVal.i 1] , environment := some [], kwargs := none }
      (some [JVal.i 2]) (some [("E", "v")]) (some [("k", JVal.s "x")])
  exact ⟨h1 [JVal.i 1] rfl (by simp), h4 (Or.inr rfl), h6 (Or.inl rfl)⟩

theorem startStepFunctionsTrace_spec
    (engine : WorkflowInvocationSettings → Except String String)
    (l : List WorkflowInvocationSettings) :
    startStepFunctionsTrace engine l =
      (l, l.filterMap (fun ws => (engine ws).toOption),
        l.filter (fun ws => (engine ws).toOption.isNone)) := by
  induction l with
  | nil => rfl
  | cons ws rest ih =>
    cases h : engine ws <;>
      simp [startStepFunctionsTrace, h, ih, List.filter_cons, Except.toOption]

/-- C3: `_start_step_functions` attempts every descriptor even if earlier
ones fail; if none fails it returns the ordered list of execution ARNs,
one per descriptor in input order; otherwise, only after every attempt,
it raises a single aggregate error naming exactly the failed descriptors
in input order. -/
theorem dispatch_all_attempts_and_aggregates
    (engine : WorkflowInvocationSettings → Except String String)
    (invocation_list : List WorkflowInvocationSettings) :
    ((startStepFunctionsTrace engine invocation_list).1 = invocation_list) ∧
    (invocation_list.filter (fun ws => (engine ws).toOption.isNone) = [] →
      startStepFunctions engine invocation_list =
        .ok (invocation_list.filterMap (fun ws => (engine ws).toOption))) ∧
    (invocation_list.filter (fun ws => (engine ws).toOption.isNone) ≠ [] →
      startStepFunctions engine invocation_list =
        .error (invocation_list.filter
          (fun ws => (engine ws).toOption.isNone))) := by
  refine ⟨by rw [startStepFunctionsTrace_spec], ?_, ?_⟩
  · intro h
    simp [startStepFunctions, startStepFunctionsTrace_spec, h]
  · intro h
    simp only [startStepFunctions, startStepFunctionsTrace_spec]
    rw [if_neg (by simpa [List.isEmpty_iff] using h)]

def engFailB : WorkflowInvocationSettings → Except String String := fun ws =>
  if ws.arn = "B" then .error "boom" else .ok ("exec-" ++ ws.arn)

def wsOfArn (a : String) : WorkflowInvocationSettings :=
  { name := some a, arn := a, parameters := [] }

/-- Witness for C3: descriptors `[A, B, C]` where `B` fails — all three
are attempted and the aggregate error names exactly `B`. -/
theorem dispatch_all_attempts_and_aggregates_witness :
    ((startStepFunctionsTrace engFailB
        [wsOfArn "A", wsOfArn "B", wsOfArn "C"]).1 =
      [wsOfArn "A", wsOfArn "B", wsOfArn "C"]) ∧
    (startStepFunctions engFailB [wsOfArn "A", wsOfArn "B", wsOfArn "C"] =
      .error [wsOfArn "B"]) ∧
    (startStepFunctions engFailB [wsOfArn "A", wsOfArn "C"] =
      .ok ["exec-A", "exec-C"]) := by
  refine ⟨(dispatch_all_attempts_and_aggregates engFailB
      [wsOfArn "A", wsOfArn "B", wsOfArn "C"]).1, ?_, ?_⟩
  · exact (dispatch_all_attempts_and_aggregates engFailB
      [wsOfArn "A", wsOfArn "B", wsOfArn "C"]).2.2
      (fun h => List.noConfusion h)
  · exact (dispatch_all_attempts_and_aggregates engFailB
      [wsOfArn "A", wsOfArn "C"]).2.1 rfl

theorem foldl_max_spec (l : List Int) (a : Int) :
    a ≤ l.foldl max a ∧ (∀ x ∈ l, x ≤ l.foldl max a) ∧
      (l.foldl max a = a ∨ l.foldl max a ∈ l) := by
  induction l generalizing a with
  | nil => simp
  | cons b bs ih =>
    simp only [List.foldl_cons]
    obtain ⟨h1, h2, h3⟩ := ih (max a b)
    refine ⟨le_trans (le_max_left a b) h1, ?_, ?_⟩
    · intro x hx
      rcases List.mem_cons.mp hx with h | h
      · rw [h]
        exact le_trans (le_max_right a b) h1
      · exact h2 x h
    · rcases h3 with h | h
      · rcases max_choice a b with hm | hm
        · exact Or.inl (h.trans hm)
        · exact Or.inr (List.mem_cons.mpr (Or.inl (h.trans hm)))
      · exact Or.inr (List.mem_cons.mpr (Or.inr h))

/-- C4: drain debounce.  With no records the drain returns empty; with a
non-empty record set and `latest` the maximum recorded upload time, it
returns empty when `now - latest <= window_seconds`, and exactly the
distinct set of all recorded paths when `now - latest >
window_seconds`. -/
theorem selectUploadPaths_debounce (current_time : Int) (W : Nat)
    (upload_entry_list : List UploadDBEntry) (latest : Int)
    (hmem : latest ∈ upload_entry_list.map (·.upload_time))
    (hmax : ∀ t ∈ upload_entry_list.map (·.upload_time), t ≤ latest) :
    (selectUploadPaths current_time W [] = []) ∧
    (current_time - latest ≤ (W : Int) →
      selectUploadPaths current_time W upload_entry_list = []) ∧
    ((W : Int) < current_time - latest →
      (selectUploadPaths current_time W upload_entry_list).Nodup ∧
      ∀ p, p ∈ selectUploadPaths current_time W upload_entry_list ↔
        p ∈ upload_entry_list.map (·.upload_path)) := by
  rcases upload_entry_list with _ | ⟨e, rest⟩
  · simp at hmem
  · have hfold : rest.foldl (fun m x => max m x.upload_time) e.upload_time =
        (rest.map (·.upload_time)).foldl max e.upload_time := by
      rw [List.foldl_map]
    obtain ⟨h1, h2, h3⟩ := foldl_max_spec (rest.map (·.upload_time)) e.upload_time
    set m := (rest.map (·.upload_time)).foldl max e.upload_time with hm
    have hml : m ≤ latest := by
      rcases h3 with h | h
      · exact h ▸ hmax e.upload_time (by simp)
      · exact hmax m (by simpa using Or.inr (by simpa using h))
    have hlm : latest ≤ m := by
      simp only [List.map_cons, List.mem_cons] at hmem
      rcases hmem with h | h
      · exact h ▸ h1
      · exact h2 latest h
    have hlatest : m = latest := le_antisymm hml hlm
    refine ⟨rfl, ?_, ?_⟩
    · intro hle
      simp only [selectUploadPaths, hfold, hlatest]
      rw [if_neg (by omega)]
    · intro hgt
      simp only [selectUploadPaths, hfold, hlatest]
      rw [if_pos (by omega)]
      constructor
      · exact ((pySortStrings_perm _).nodup_iff).mpr (nodup_pyDistinct _)
      · intro p
        rw [pySortedSet, mem_pySortStrings, mem_pyDistinct]

def entriesC4 : List UploadDBEntry :=
  [⟨"s3://b/2", 85⟩, ⟨"s3://b/1", 80⟩, ⟨"s3://b/2", 70⟩]

/-- Witness for C4 at a concrete record set (`latest = 85`, window 10):
at `now = 90` the debounce holds; at `now = 100` the distinct path set is
returned. -/
theorem selectUploadPaths_debounce_witness :
    selectUploadPaths 90 10 entriesC4 = [] ∧
    (selectUploadPaths 100 10 entriesC4).Nodup ∧
    (∀ p, p ∈ selectUploadPaths 100 10 entriesC4 ↔
      p ∈ entriesC4.map (·.upload_path)) := by
  refine ⟨(selectUploadPaths_debounce 90 10 entriesC4 85 (by decide)
    (by decide)).2.1 (by decide), ?_⟩
  obtain ⟨hn, hiff⟩ := (selectUploadPaths_debounce 100 10 entriesC4 85
    (by decide) (by decide)).2.2 (by decide)
  exact ⟨hn, hiff⟩

theorem get_task_list_union (user_config : UserConfig) (ut : List TaskName)
    (h : user_config.get_task_list = some ut) :
    ∀ x, x ∈ ut ↔ (x ∈ user_config.tasks.getD [] ∨
      x ∈ (user_config.settings.getD []).map Prod.fst) := by
  intro x
  unfold UserConfig.get_task_list at h
  rcases hs : user_config.settings with _ | s <;>
    rcases htk : user_config.tasks with _ | tk <;>
      rw [hs, htk] at h <;> simp at h <;>
        simp [hs, htk, ← h, mem_pyDistinct]

/-- C5: if the caller supplied an explicit task list or per-task settings,
the candidate set is exactly the union of the two, and a
`ConfigurationError` (Python `ValueError`) is raised when any requested
name is absent from the allowed set; if the caller supplied neither, the
candidate set is the allowed set in full. -/
theorem select_candidates_spec (user_config : UserConfig)
    (lambda_config : LambdaConfig) :
    ((user_config.settings = none ∧ user_config.tasks = none) →
      getTaskCandidates user_config lambda_config =
        .ok lambda_config.allowed_tasks) ∧
    (∀ ut, user_config.get_task_list = some ut →
      ((∀ x ∈ ut, x ∈ lambda_config.allowed_tasks) →
        ∃ l, getTaskCandidates user_config lambda_config = .ok l ∧
          ∀ x, x ∈ l ↔ (x ∈ user_config.tasks.getD [] ∨
            x ∈ (user_config.settings.getD []).map Prod.fst)) ∧
      ((∃ x ∈ ut, x ∉ lambda_config.allowed_tasks) →
        ∃ e, getTaskCandidates user_config lambda_config = .error e)) := by
  constructor
  · rintro ⟨h1, h2⟩
    simp [getTaskCandidates, UserConfig.get_task_list, h1, h2]
  · intro ut h
    constructor
    · intro hall
      refine ⟨ut, ?_, get_task_list_union user_config ut h⟩
      have hany : ut.any
          (fun t => !(lambda_config.allowed_tasks.contains t)) = false := by
        simp only [List.any_eq_false, Bool.not_eq_true']
        intro x hx
        simpa using hall x hx
      simp only [getTaskCandidates, h]
      rw [if_neg (by simp only [hany]; simp)]
    · rintro ⟨x, hx, hnx⟩
      have hany : ut.any
          (fun t => !(lambda_config.allowed_tasks.contains t)) = true := by
        simp only [List.any_eq_true]
        exact ⟨x, hx, by simpa using hnx⟩
      refine ⟨"Invalid tasks selected", ?_⟩
      simp only [getTaskCandidates, h]
      rw [if_pos hany]

def lcfgXY : LambdaConfig :=
  { account_name := "acct", allowed_tasks := ["X", "Y"],
    cdp_tools_wheel := "s3://wheel", preprocessing_database_name := "db",
    run_db_key := "key", run_db_table := "tbl", scope := "sc",
    task_env := [] }

/-- Witness for C5: `allowed = {X, Y}`, `user_requested = [Z]` raises the
configuration error, and with no user selection the full allowed set is
returned. -/
theorem select_candidates_spec_witness :
    (∃ e, getTaskCandidates { tasks := some ["Z"] } lcfgXY = .error e) ∧
    getTaskCandidates {} lcfgXY = .ok ["X", "Y"] := by
  constructor
  · exact ((select_candidates_spec { tasks := some ["Z"] } lcfgXY).2
      ["Z"] rfl).2 ⟨"Z", by decide, by decide⟩
  · exact (select_candidates_spec {} lcfgXY).1 ⟨rfl, rfl⟩

/-- C7: for a rule with the ignore flag enabled, a path matching the glob
selector but containing `/snowflake/` is excluded from the matching path
list unless it ends in `last_query_id.parquet`, in which case it is
included; with the flag disabled all glob-matching paths are kept. -/
theorem get_matching_paths_snowflake_exclusion (rule : UploadTriggerSettings)
    (path_list : List String) (p : String) :
    (rule.ignore_snowflake_data_files = true →
      (p ∈ rule.get_matching_paths path_list ↔
        p ∈ path_list ∧ fnmatch p rule.file_selector = true ∧
          (containsSub "/snowflake/" p = false ∨
            pyEndsWith p "last_query_id.parquet" = true))) ∧
    (rule.ignore_snowflake_data_files = false →
      (p ∈ rule.get_matching_paths path_list ↔
        p ∈ path_list ∧ fnmatch p rule.file_selector = true)) := by
  constructor <;> intro hflag
  · simp [UploadTriggerSettings.get_matching_paths, hflag, List.mem_filter,
      and_assoc, Bool.not_eq_true']
    tauto
  · simp [UploadTriggerSettings.get_matching_paths, hflag, List.mem_filter,
      and_assoc, Bool.not_eq_true']

def ruleBkt : UploadTriggerSettings :=
  { file_selector := "s3://bkt/*",
    workflow_settings := { name := none, arn := "arn:sm", parameters := [] } }

/-- Witness for C7: `s3://bkt/a/snowflake/x.csv` is excluded by the rule,
the completion marker `.../last_query_id.parquet` is included, and with
the flag disabled the data file is kept. -/
theorem get_matching_paths_snowflake_exclusion_witness :
    "s3://bkt/a/snowflake/x.csv" ∉
      ruleBkt.get_matching_paths ["s3://bkt/a/snowflake/x.csv"] ∧
    "s3://bkt/a/snowflake/last_query_id.parquet" ∈
      ruleBkt.get_matching_paths
        ["s3://bkt/a/snowflake/last_query_id.parquet"] ∧
    "s3://bkt/a/snowflake/x.csv" ∈
      ({ ruleBkt with ignore_snowflake_data_files := false } :
        UploadTriggerSettings).get_matching_paths
        ["s3://bkt/a/snowflake/x.csv"] := by
  refine ⟨?_, ?_, ?_⟩
  · intro hmem
    obtain ⟨-, -, h3⟩ := ((get_matching_paths_snowflake_exclusion ruleBkt
      ["s3://bkt/a/snowflake/x.csv"] "s3://bkt/a/snowflake/x.csv").1
      rfl).mp hmem
    rcases h3 with h | h
    · exact absurd h (by simp [show containsSub "/snowflake/"
        "s3://bkt/a/snowflake/x.csv" = true from rfl])
    · exact absurd h (by simp [show pyEndsWith "s3://bkt/a/snowflake/x.csv"
        "last_query_id.parquet" = false from rfl])
  · exact ((get_matching_paths_snowflake_exclusion ruleBkt
      ["s3://bkt/a/snowflake/last_query_id.parquet"]
      "s3://bkt/a/snowflake/last_query_id.parquet").1 rfl).mpr
      ⟨by simp, rfl, Or.inr rfl⟩
  · exact ((get_matching_paths_snowflake_exclusion
      { ruleBkt with ignore_snowflake_data_files := false }
      ["s3://bkt/a/snowflake/x.csv"] "s3://bkt/a/snowflake/x.csv").2
      rfl).mpr ⟨by simp, rfl⟩

theorem evalTaskStep_dget_other (update_run_db : Bool)
    (acc : List (TaskName × TState) × List TaskName)
    (task_name t : TaskName) (plg : FrequencyBase) (ht : task_name ≠ t) :
    dget (evalTaskStep update_run_db acc task_name plg).1 t =
      dget acc.1 t := by
  obtain ⟨copy, fired⟩ := acc
  simp only [evalTaskStep]
  rcases htr : plg.trigger (dinsert ((dget copy task_name).getD [])
      "use_case_name" (JVal.s task_name)) with e | b
  · by_cases hs : (dget copy task_name).isSome <;>
      simp [hs, dget_dinsert, ht]
  · rcases b with _ | _
    · by_cases hs : (dget copy task_name).isSome <;>
        simp [hs, dget_dinsert, ht]
    · rcases update_run_db with _ | _ <;>
        by_cases hs : (dget copy task_name).isSome <;>
          simp [hs, dget_dinsert, ht]

theorem evalTaskStep_nodup (update_run_db : Bool)
    (acc : List (TaskName × TState) × List TaskName)
    (task_name : TaskName) (plg : FrequencyBase)
    (h : (dkeys acc.1).Nodup) :
    (dkeys (evalTaskStep update_run_db acc task_name plg).1).Nodup := by
  obtain ⟨copy, fired⟩ := acc
  simp only [evalTaskStep]
  rcases htr : plg.trigger (dinsert ((dget copy task_name).getD [])
      "use_case_name" (JVal.s task_name)) with e | b
  · by_cases hs : (dget copy task_name).isSome <;>
      simp [hs, nodup_dkeys_dinsert, h]
  · rcases b with _ | _
    · by_cases hs : (dget copy task_name).isSome <;>
        simp [hs, nodup_dkeys_dinsert, h]
    · rcases update_run_db with _ | _ <;>
        by_cases hs : (dget copy task_name).isSome <;>
          simp [hs, nodup_dkeys_dinsert, h,
            nodup_dkeys_dinsert _ _ _ (nodup_dkeys_dinsert _ _ _ h)]

theorem triggerLoop_dget_other (update_run_db : Bool)
    (task_plugin_map : List (TaskName × FrequencyBase))
    (acc : List (TaskName × TState) × List TaskName) (t : TaskName)
    (ht : t ∉ task_plugin_map.map Prod.fst) :
    dget (task_plugin_map.foldl
      (fun a item => evalTaskStep update_run_db a item.1 item.2) acc).1 t =
      dget acc.1 t := by
  induction task_plugin_map generalizing acc with
  | nil => rfl
  | cons hd tl ih =>
    simp only [List.map_cons, List.mem_cons, not_or] at ht
    rw [List.foldl_cons, ih _ ht.2,
      evalTaskStep_dget_other _ _ _ _ _ (fun h => ht.1 h.symm)]

theorem triggerLoop_nodup (update_run_db : Bool)
    (task_plugin_map : List (TaskName × FrequencyBase))
    (acc : List (TaskName × TState) × List TaskName)
    (h : (dkeys acc.1).Nodup) :
    (dkeys (task_plugin_map.foldl
      (fun a item => evalTaskStep update_run_db a item.1 item.2) acc).1).Nodup := by
  induction task_plugin_map generalizing acc with
  | nil => exact h
  | cons hd tl ih =>
    exact ih _ (evalTaskStep_nodup _ _ _ _ h)

/-- C1: no-touch invariant.  A task that is not in the policy-evaluation
set of a trigger round has the same `TriggerState` slice in the record
committed at the end of the round (a single full-record write) as before
the round. -/
theorem trigger_round_no_touch (run_db_key : String) (update_run_db : Bool)
    (task_plugin_map : List (TaskName × FrequencyBase))
    (record : RunStateRecord) (t : TaskName)
    (hrec : (dkeys record.tasks).Nodup)
    (ht : t ∉ task_plugin_map.map Prod.fst) :
    dget (getTriggeredTasks run_db_key update_run_db task_plugin_map
      record).1.tasks t = dget record.tasks t := by
  unfold getTriggeredTasks getTriggeredTasksLoop
  rw [dget_dupdate _ _ _
    (triggerLoop_nodup update_run_db task_plugin_map (record.tasks, []) hrec),
    triggerLoop_dget_other update_run_db task_plugin_map (record.tasks, []) t ht]
  cases dget record.tasks t <;> rfl

/-- Witness for C1 at a concrete round: task `u` is not in the plugin
map, its stored slice survives the commit unchanged. -/
theorem trigger_round_no_touch_witness :
    dget (getTriggeredTasks "key" true
      [("t", ⟨fun _ => .ok true, fun st => dinsert st "count" (JVal.i 1)⟩)]
      { workflow := some "wf",
        tasks := [("t", [("x", JVal.s "1")]), ("u", [("y", JVal.s "2")])] }).1.tasks
      "u" = some [("y", JVal.s "2")] := by
  rw [trigger_round_no_touch "key" true _ _ "u" (by decide) (by decide)]
  rfl

/-- Counterexample for C2: a task in the policy-evaluation set whose
policy does not fire (here: `evaluate` returns false) does NOT keep its
previous slice unchanged — the in-place bookkeeping write
`task_frequency_state['use_case_name'] = task_name` reaches the
committed record. -/
theorem trigger_round_not_fired_state_changed :
    dget (getTriggeredTasks "key" true
      [("t", ⟨fun _ => Except.ok false, id⟩)]
      { workflow := some "wf",
        tasks := [("t", [("x", JVal.s "1")])] }).1.tasks "t" ≠
    dget ({ workflow := some "wf",
            tasks := [("t", [("x", JVal.s "1")])] } :
      RunStateRecord).tasks "t" := by
  intro h
  have h1 : dget (getTriggeredTasks "key" true
      [("t", (⟨fun _ => Except.ok false, id⟩ : FrequencyBase))]
      { workflow := some "wf",
        tasks := [("t", [("x", JVal.s "1")])] }).1.tasks "t" =
      some [("x", JVal.s "1"), ("use_case_name", JVal.s "t")] := rfl
  have h2 : dget ({ workflow := some "wf",
                    tasks := [("t", [("x", JVal.s "1")])] } :
      RunStateRecord).tasks "t" = some [("x", JVal.s "1")] := rfl
  rw [h1, h2] at h
  injection h with h'
  have hlen := congrArg List.length h'
  simp at hlen

theorem evalTaskStep_dget_self_nofire (update_run_db : Bool)
    (acc : List (TaskName × TState) × List TaskName) (t : TaskName)
    (p : FrequencyBase)
    (hnofire : p.trigger (dinsert ((dget acc.1 t).getD [])
      "use_case_name" (JVal.s t)) ≠ Except.ok true) :
    dget (evalTaskStep update_run_db acc t p).1 t =
      (dget acc.1 t).map
        (fun st => dinsert st "use_case_name" (JVal.s t)) := by
  obtain ⟨copy, fired⟩ := acc
  simp only at hnofire
  simp only [evalTaskStep]
  rcases htr : p.trigger (dinsert ((dget copy t).getD [])
      "use_case_name" (JVal.s t)) with e | b
  · by_cases hs : (dget copy t).isSome
    · obtain ⟨st, hst⟩ := Option.isSome_iff_exists.mp hs
      simp [hs, hst, dget_dinsert]
    · have hnone : dget copy t = none := Option.not_isSome_iff_eq_none.mp hs
      simp [hs, hnone]
  · rcases b with _ | _
    · by_cases hs : (dget copy t).isSome
      · obtain ⟨st, hst⟩ := Option.isSome_iff_exists.mp hs
        simp [hs, hst, dget_dinsert]
      · have hnone : dget copy t = none := Option.not_isSome_iff_eq_none.mp hs
        simp [hs, hnone]
    · exact absurd htr hnofire

/-- C2 (amended): for a task in the policy-evaluation set whose policy
does not declare it fired — `evaluate` returns false or raises — the
committed slice equals the previous slice with only the bookkeeping key
`use_case_name` set to the task's name; in particular an absent slice
stays absent and every other key keeps its previous value. -/
theorem trigger_round_not_fired_preserved_amended (run_db_key : String)
    (update_run_db : Bool)
    (task_plugin_map : List (TaskName × FrequencyBase))
    (record : RunStateRecord) (t : TaskName) (p : FrequencyBase)
    (hrec : (dkeys record.tasks).Nodup)
    (hplug : (task_plugin_map.map Prod.fst).Nodup)
    (hmem : (t, p) ∈ task_plugin_map)
    (hnofire : p.trigger (dinsert ((dget record.tasks t).getD [])
      "use_case_name" (JVal.s t)) ≠ Except.ok true) :
    dget (getTriggeredTasks run_db_key update_run_db task_plugin_map
      record).1.tasks t =
      (dget record.tasks t).map
        (fun st => dinsert st "use_case_name" (JVal.s t)) := by
  obtain ⟨l1, l2, hsplit⟩ := List.append_of_mem hmem
  subst hsplit
  have hkeys : (l1.map Prod.fst ++ t :: l2.map Prod.fst).Nodup := by
    simpa using hplug
  have ht1 : t ∉ l1.map Prod.fst := by
    intro hc
    exact (List.disjoint_of_nodup_append hkeys) hc (List.mem_cons_self t _)
  have ht2 : t ∉ l2.map Prod.fst :=
    (List.nodup_cons.mp (List.nodup_append.mp hkeys).2.1).1
  unfold getTriggeredTasks getTriggeredTasksLoop
  rw [List.foldl_append, List.foldl_cons]
  have hdg1 : dget (l1.foldl
      (fun a item => evalTaskStep update_run_db a item.1 item.2)
      (record.tasks, [])).1 t = dget record.tasks t :=
    triggerLoop_dget_other update_run_db l1 (record.tasks, []) t ht1
  have hnod1 : (dkeys (l1.foldl
      (fun a item => evalTaskStep update_run_db a item.1 item.2)
      (record.tasks, [])).1).Nodup :=
    triggerLoop_nodup update_run_db l1 (record.tasks, []) hrec
  have hstep : dget (evalTaskStep update_run_db
      (l1.foldl (fun a item => evalTaskStep update_run_db a item.1 item.2)
        (record.tasks, [])) t p).1 t =
      (dget record.tasks t).map
        (fun st => dinsert st "use_case_name" (JVal.s t)) := by
    rw [evalTaskStep_dget_self_nofire update_run_db _ t p
      (by rw [hdg1]; exact hnofire), hdg1]
  rw [dget_dupdate _ _ _ (triggerLoop_nodup update_run_db l2 _
    (evalTaskStep_nodup update_run_db _ t p hnod1)),
    triggerLoop_dget_other update_run_db l2 _ t ht2, hstep]
  cases dget record.tasks t <;> rfl

/-- Witness for C2 (amended) at a concrete non-fired round: the committed
slice is the old slice plus the `use_case_name` bookkeeping key. -/
theorem trigger_round_not_fired_preserved_amended_witness :
    dget (getTriggeredTasks "key" true
      [("t", ⟨fun _ => Except.ok false, id⟩)]
      { workflow := some "wf",
        tasks := [("t", [("x", JVal.s "1")])] }).1.tasks "t" =
      some [("x", JVal.s "1"), ("use_case_name", JVal.s "t")] := by
  rw [trigger_round_not_fired_preserved_amended "key" true
    [("t", ⟨fun _ => Except.ok false, id⟩)]
    { workflow := some "wf", tasks := [("t", [("x", JVal.s "1")])] }
    "t" ⟨fun _ => Except.ok false, id⟩ (by decide) (by decide)
    (List.mem_singleton.mpr rfl) (by simp)]
  rfl

/-- The effect of one upload-trigger iteration on the rule itself: the
rule is unchanged when no path matches, otherwise its parameter template
is rewritten in place by the placeholder substitution. -/
def ruleAfterUploads (upload_path_list : List String)
    (upload_config : UploadTriggerSettings) : UploadTriggerSettings :=
  let matching_path_list := upload_config.get_matching_paths upload_path_list
  if matching_path_list.isEmpty then upload_config
  else
    let ws := replaceInvocationParameters upload_config.workflow_settings
      [("matching_path_list", JVal.arr (matching_path_list.map JVal.s)),
       ("upload_path_list", JVal.arr (upload_path_list.map JVal.s))]
    { upload_config with workflow_settings := ws }

theorem uploadTriggerStep_rules (formatName : String → String)
    (upload_path_list : List String) (acc) (upload_config) :
    (uploadTriggerStep formatName upload_path_list acc upload_config).1 =
      acc.1 ++ [ruleAfterUploads upload_path_list upload_config] := by
  obtain ⟨rules, check_only_list, invocation_list⟩ := acc
  by_cases hm : (upload_config.get_matching_paths upload_path_list).isEmpty <;>
    by_cases hc : upload_config.check_only <;>
      simp [uploadTriggerStep, ruleAfterUploads, hm, hc]

theorem uploadTriggerLoop_rules (formatName : String → String)
    (upload_path_list : List String)
    (upload_triggers : List UploadTriggerSettings) (acc) :
    (upload_triggers.foldl
      (uploadTriggerStep formatName upload_path_list) acc).1 =
      acc.1 ++ upload_triggers.map (ruleAfterUploads upload_path_list) := by
  induction upload_triggers generalizing acc with
  | nil => simp
  | cons hd tl ih =>
    rw [List.foldl_cons, ih, uploadTriggerStep_rules]
    simp

def ruleC9 : UploadTriggerSettings where
  file_selector := "*"
  workflow_settings :=
    { name := some "wf-{timestamp}"
      arn := "arn:sm"
      parameters := [("path.$", JVal.s "$.matching_path_list")] }

/-- Counterexample for C9: computing the upload-triggered invocation list
does NOT leave the configured trigger rules unchanged — a rule with a
matching path and a placeholder parameter has its JSON parameter blob
rewritten in place (`_replace_invocation_parameters` mutates the rule's
`workflow_settings`), so a later drain over the same in-memory
configuration would not start from the original template. -/
theorem upload_rules_mutated_cex :
    (getInvocationListForUploads id [ruleC9] ["p1"]).1 ≠ [ruleC9] := by
  intro h
  have hfun := congrArg (fun l : List UploadTriggerSettings =>
    (dget ((l.headD ruleC9).workflow_settings.parameters) "path.$").isNone) h
  have h1 : (dget (((getInvocationListForUploads id [ruleC9]
      ["p1"]).1.headD ruleC9).workflow_settings.parameters) "path.$").isNone =
      true := rfl
  have h2 : (dget (([ruleC9].headD ruleC9).workflow_settings.parameters)
      "path.$").isNone = false := rfl
  simp only at hfun
  rw [h1, h2] at hfun
  exact Bool.noConfusion hfun

/-- C9 (amended): computing the upload-triggered invocation list leaves
every rule whose selector matches no path unchanged, and leaves every
rule's selector, flags, name template and target ARN unchanged; but the
JSON parameter blob of each rule with matching paths is rewritten in
place by the placeholder substitution, so the rule list after the call
is the input list with exactly those parameter blobs replaced. -/
theorem upload_rules_mutation_frame (formatName : String → String)
    (upload_triggers : List UploadTriggerSettings)
    (upload_path_list : List String) :
    ((getInvocationListForUploads formatName upload_triggers
      upload_path_list).1 =
      upload_triggers.map (ruleAfterUploads upload_path_list)) ∧
    (∀ rule ∈ upload_triggers,
      (rule.get_matching_paths upload_path_list = [] →
        ruleAfterUploads upload_path_list rule = rule) ∧
      (ruleAfterUploads upload_path_list rule).file_selector =
        rule.file_selector ∧
      (ruleAfterUploads upload_path_list rule).ignore_snowflake_data_files =
        rule.ignore_snowflake_data_files ∧
      (ruleAfterUploads upload_path_list rule).check_only = rule.check_only ∧
      (ruleAfterUploads upload_path_list rule).workflow_settings.name =
        rule.workflow_settings.name ∧
      (ruleAfterUploads upload_path_list rule).workflow_settings.arn =
        rule.workflow_settings.arn) := by
  constructor
  · simp only [getInvocationListForUploads]
    rw [uploadTriggerLoop_rules]
    simp
  · intro rule hrule
    refine ⟨fun hempty => by simp [ruleAfterUploads, hempty], ?_, ?_, ?_, ?_, ?_⟩ <;>
      by_cases hm : (rule.get_matching_paths upload_path_list).isEmpty <;>
        simp [ruleAfterUploads, hm, replaceInvocationParameters]

/-- Witness for C9 (amended): a two-rule configuration where the first
rule matches and the second does not — the returned rule list is the
input list with only the matched rule's parameter blob rewritten, and
the unmatched rule is returned exactly as configured. -/
theorem upload_rules_mutation_frame_witness :
    (getInvocationListForUploads id
      [ruleC9, { ruleC9 with file_selector := "nomatch-*" }] ["p1"]).1 =
      [ruleAfterUploads ["p1"] ruleC9,
        { ruleC9 with file_selector := "nomatch-*" }] := by
  have h := upload_rules_mutation_frame id
    [ruleC9, { ruleC9 with file_selector := "nomatch-*" }] ["p1"]
  rw [h.1]
  have h2 := (h.2 { ruleC9 with file_selector := "nomatch-*" }
    (by simp)).1 rfl
  simp only [List.map_cons, List.map_nil, h2]

theorem getTaskConfigMap_aux (load : TaskName → Option TaskConfig)
    (names : List TaskName) (acc : List (TaskName × TaskConfig))
    (x : TaskName) (c : TaskConfig)
    (h : (x, c) ∈ names.foldl (fun result task_name =>
      match load task_name with
      | some task_config => result ++ [(task_name, task_config)]
      | none => result) acc) : (x, c) ∈ acc ∨ load x = some c := by
  induction names generalizing acc with
  | nil => exact Or.inl h
  | cons n ns ih =>
    rw [List.foldl_cons] at h
    rcases hl : load n with _ | cfg
    · rw [hl] at h
      exact ih _ h
    · rw [hl] at h
      rcases ih _ h with hacc | hload
      · rcases List.mem_append.mp hacc with h1 | h1
        · exact Or.inl h1
        · simp only [List.mem_singleton, Prod.mk.injEq] at h1
          refine Or.inr ?_
          rw [h1.1, hl, h1.2]
      · exact Or.inr hload

theorem getTaskConfigMap_keys_isSome (load : TaskName → Option TaskConfig)
    (names : List TaskName) (x : TaskName)
    (h : x ∈ dkeys (getTaskConfigMap load names)) : (load x).isSome := by
  simp only [dkeys, List.mem_map] at h
  obtain ⟨⟨x', c⟩, hmem, hx⟩ := h
  subst hx
  rcases getTaskConfigMap_aux load names [] x' c hmem with h1 | h1
  · simp at h1
  · simp [h1]

theorem evalTaskStep_snd (update_run_db : Bool)
    (acc : List (TaskName × TState) × List TaskName)
    (task_name : TaskName) (plg : FrequencyBase) :
    (evalTaskStep update_run_db acc task_name plg).2 = acc.2 ∨
      (evalTaskStep update_run_db acc task_name plg).2 =
        acc.2 ++ [task_name] := by
  obtain ⟨copy, fired⟩ := acc
  simp only [evalTaskStep]
  rcases htr : plg.trigger (dinsert ((dget copy task_name).getD [])
      "use_case_name" (JVal.s task_name)) with e | b
  · by_cases hs : (dget copy task_name).isSome <;> simp [hs]
  · rcases b with _ | _
    · by_cases hs : (dget copy task_name).isSome <;> simp [hs]
    · rcases update_run_db with _ | _ <;>
        by_cases hs : (dget copy task_name).isSome <;> simp [hs]

theorem triggerLoop_snd_subset (update_run_db : Bool)
    (task_plugin_map : List (TaskName × FrequencyBase))
    (acc : List (TaskName × TState) × List TaskName) (x : TaskName)
    (h : x ∈ (task_plugin_map.foldl
      (fun a item => evalTaskStep update_run_db a item.1 item.2) acc).2) :
    x ∈ acc.2 ∨ x ∈ task_plugin_map.map Prod.fst := by
  induction task_plugin_map generalizing acc with
  | nil => exact Or.inl h
  | cons hd tl ih =>
    rw [List.foldl_cons] at h
    rcases ih _ h with h1 | h1
    · rcases evalTaskStep_snd update_run_db acc hd.1 hd.2 with h2 | h2
      · rw [h2] at h1
        exact Or.inl h1
      · rw [h2] at h1
        rcases List.mem_append.mp h1 with h3 | h3
        · exact Or.inl h3
        · simp only [List.mem_singleton] at h3
          subst h3
          simp
    · simp [h1]

theorem schedulePluginStep_mem
    (plugin_loader : List (String × JVal) → Except String FrequencyBase)
    (lambda_config : LambdaConfig) (is_user : Bool)
    (acc : List (TaskName × FrequencyBase)) (item : TaskName × TaskConfig)
    (y : TaskName × FrequencyBase)
    (h : y ∈ schedulePluginStep plugin_loader lambda_config is_user acc item) :
    y ∈ acc ∨ y.1 = item.1 := by
  simp only [schedulePluginStep] at h
  by_cases hrc : !(checkRunConfig lambda_config item.2)
  · rw [if_pos hrc] at h
    exact Or.inl h
  · rw [if_neg hrc] at h
    rcases hl : plugin_loader item.2.run.frequency with e | p
    · rw [hl] at h
      exact Or.inl h
    · rw [hl] at h
      have h' : y ∈ (if (is_user || item.2.run.default : Bool) then
          acc ++ [(item.1, p)] else acc) := h
      by_cases hu : (is_user || item.2.run.default : Bool)
      · rw [if_pos hu] at h'
        rcases List.mem_append.mp h' with h1 | h1
        · exact Or.inl h1
        · simp only [List.mem_singleton] at h1
          subst h1
          exact Or.inr rfl
      · rw [if_neg hu] at h'
        exact Or.inl h'

theorem schedulePluginMap_keys
    (plugin_loader : List (String × JVal) → Except String FrequencyBase)
    (lambda_config : LambdaConfig) (is_user : Bool)
    (tcl : List (TaskName × TaskConfig))
    (acc : List (TaskName × FrequencyBase)) (y : TaskName × FrequencyBase)
    (h : y ∈ tcl.foldl
      (schedulePluginStep plugin_loader lambda_config is_user) acc) :
    y ∈ acc ∨ y.1 ∈ tcl.map Prod.fst := by
  induction tcl generalizing acc with
  | nil => exact Or.inl h
  | cons hd tl ih =>
    rw [List.foldl_cons] at h
    rcases ih _ h with h1 | h1
    · rcases schedulePluginStep_mem plugin_loader lambda_config is_user
        acc hd y h1 with h2 | h2
      · exact Or.inl h2
      · exact Or.inr (by simp [h2])
    · exact Or.inr (by simp [h1])

theorem getScheduledTasks_snd_keys
    (plugin_loader : List (String × JVal) → Except String FrequencyBase)
    (user_config : UserConfig) (lambda_config : LambdaConfig)
    (task_config_map : List (TaskName × TaskConfig))
    (record : RunStateRecord) (x : TaskName)
    (h : x ∈ (getScheduledTasks plugin_loader user_config lambda_config
      task_config_map record).2) : x ∈ dkeys task_config_map := by
  unfold getScheduledTasks getTriggeredTasks getTriggeredTasksLoop at h
  simp only at h
  rcases triggerLoop_snd_subset user_config.update_run_db _
    (record.tasks, []) x h with h1 | h1
  · simp at h1
  · simp only [List.mem_map] at h1
    obtain ⟨⟨x', p⟩, hmem, hx⟩ := h1
    subst hx
    rcases schedulePluginMap_keys plugin_loader lambda_config
      user_config.get_task_list.isSome task_config_map [] (x', p) hmem
      with h2 | h2
    · simp at h2
    · simpa [dkeys] using h2

theorem getJobInfo_task_name (payload : SFNPayload)
    (lambda_config : LambdaConfig) (x : TaskName) (c : TaskConfig)
    (j : JobInfo) (h : getJobInfo payload lambda_config x c = some j) :
    j.task_name = x := by
  simp only [getJobInfo] at h
  rcases hj : dget payload.job_name_map "python" with _ | jn
  · rw [hj] at h
    simp at h
  · rw [hj] at h
    simp only [Option.map_some', Option.some.injEq] at h
    rw [← h]

theorem getJobInfo_isSome (payload : SFNPayload)
    (lambda_config : LambdaConfig) (x : TaskName) (c : TaskConfig) :
    (getJobInfo payload lambda_config x c).isSome =
      (dget payload.job_name_map "python").isSome := by
  simp [getJobInfo]

/-- C10 (implicit): a candidate task whose static configuration file is
absent or fails validation (`load_task_config` returns `None`) is
silently dropped: a schedule-path round over a well-formed payload
completes without raising and produces no job for that task, even when
the task was explicitly user-requested and is in the allowed list. -/
theorem missing_task_config_silently_dropped
    (load : TaskName → Option TaskConfig)
    (plugin_loader : List (String × JVal) → Except String FrequencyBase)
    (record : RunStateRecord) (payload : SFNPayload)
    (lambda_config : LambdaConfig) (t : TaskName)
    (hload : load t = none)
    (hallowed : ∀ x ∈ (payload.user_config.get_task_list).getD [],
      x ∈ lambda_config.allowed_tasks)
    (hsched : payload.user_config.get_check_schedule = true)
    (hjob : (dget payload.job_name_map "python").isSome = true) :
    ∃ out rec2,
      process load plugin_loader record payload lambda_config =
        Except.ok (out, rec2) ∧
      ∀ j ∈ out.job_list, j.task_name ≠ t := by
  obtain ⟨cands, hc⟩ : ∃ c, getTaskCandidates payload.user_config
      lambda_config = .ok c := by
    rcases hgt : payload.user_config.get_task_list with _ | ut
    · refine ⟨lambda_config.allowed_tasks, ?_⟩
      simp [getTaskCandidates, hgt]
    · refine ⟨ut, ?_⟩
      have hany : ut.any
          (fun x => !(lambda_config.allowed_tasks.contains x)) = false := by
        simp only [List.any_eq_false, Bool.not_eq_true']
        intro x hx
        have := hallowed x (by rw [hgt]; simpa using hx)
        simpa using this
      simp only [getTaskCandidates, hgt]
      rw [if_neg (by simp only [hany]; simp)]
  have hsel : ∀ x, x ∈ (getScheduledTasks plugin_loader payload.user_config
      lambda_config (getTaskConfigMap load cands) record).2 →
      x ∈ dkeys (getTaskConfigMap load cands) :=
    fun x hx => getScheduledTasks_snd_keys plugin_loader _ _ _ _ x hx
  have hbuild : ∀ x ∈ pySortStrings (getScheduledTasks plugin_loader
      payload.user_config lambda_config (getTaskConfigMap load cands)
      record).2,
      (match dget (getTaskConfigMap load cands) x with
        | none => none
        | some task_config =>
          getJobInfo payload lambda_config x task_config).isSome = true := by
    intro x hx
    have hxk := hsel x ((mem_pySortStrings _ x).mp hx)
    obtain ⟨c, hcx⟩ := Option.isSome_iff_exists.mp
      (dget_isSome_of_mem_dkeys _ x hxk)
    rw [hcx]
    rw [getJobInfo_isSome]
    exact hjob
  have hkey : process load plugin_loader record payload lambda_config =
      Except.ok
        ({ job_list := (pySortStrings (getScheduledTasks plugin_loader
            payload.user_config lambda_config (getTaskConfigMap load cands)
            record).2).filterMap (fun task_name =>
              match dget (getTaskConfigMap load cands) task_name with
              | none => none
              | some task_config =>
                getJobInfo payload lambda_config task_name task_config) },
         (getScheduledTasks plugin_loader payload.user_config lambda_config
            (getTaskConfigMap load cands) record).1) := by
    simp only [process, hc, hsched, if_true]
    rw [if_pos (List.all_eq_true.mpr hbuild)]
  refine ⟨_, _, hkey, ?_⟩
  intro j hj
  simp only [List.mem_filterMap] at hj
  obtain ⟨x, hx, hbx⟩ := hj
  rcases hdx : dget (getTaskConfigMap load cands) x with _ | c
  · rw [hdx] at hbx
    simp at hbx
  · rw [hdx] at hbx
    have hxt := getJobInfo_task_name payload lambda_config x c j hbx
    have hxk := mem_dkeys_of_dget_eq_some _ x c hdx
    have hxsome := getTaskConfigMap_keys_isSome load cands x hxk
    intro hjt
    rw [hxt] at hjt
    subst hjt
    rw [hload] at hxsome
    simp at hxsome

def lcfgC10 : LambdaConfig where
  account_name := "acct"
  allowed_tasks := ["t", "w"]
  cdp_tools_wheel := "s3://wheel"
  preprocessing_database_name := "db"
  run_db_key := "key"
  run_db_table := "tbl"
  scope := "sc"
  task_env := []

def payloadC10 : SFNPayload where
  job_name_map := [("python", "jobX")]
  user_config := { tasks := some ["t"], check_schedule := some true }

/-- Witness for C10: the user explicitly requests allowed task `t`, whose
config file is missing; the schedule-path round returns successfully and
produces no job for `t`. -/
theorem missing_task_config_silently_dropped_witness :
    ∃ out rec2,
      process (fun _ => none)
        (fun _ => Except.ok ⟨fun _ => Except.ok true, id⟩)
        { tasks := [] } payloadC10 lcfgC10 = Except.ok (out, rec2) ∧
      ∀ j ∈ out.job_list, j.task_name ≠ "t" :=
  missing_task_config_silently_dropped (fun _ => none)
    (fun _ => Except.ok ⟨fun _ => Except.ok true, id⟩)
    { tasks := [] } payloadC10 lcfgC10 "t" rfl (by decide) rfl rfl

theorem string_append_left_cancel (a b c : String) (h : a ++ b = a ++ c) :
    b = c := by
  have h2 : a.toList ++ b.toList = a.toList ++ c.toList := by
    simpa using congrArg String.toList h
  exact String.ext (List.append_cancel_left h2)

theorem pyEndsWith_strip_append (s : String)
    (h : pyEndsWith s ".$" = true) : pyStrip2 s ++ ".$" = s := by
  simp only [pyEndsWith, List.isSuffixOf_iff_suffix] at h
  obtain ⟨pre, hpre⟩ := h
  have hdl : s.toList.dropLast.dropLast = pre := by
    rw [← hpre]
    show (pre ++ ['.', '$']).dropLast.dropLast = pre
    rw [show pre ++ ['.', '$'] = (pre ++ ['.']) ++ ['$'] by simp,
      List.dropLast_concat, List.dropLast_concat]
  apply String.ext
  show (pyStrip2 s ++ ".$").toList = s.toList
  rw [show (pyStrip2 s ++ ".$").toList =
    (pyStrip2 s).toList ++ (".$" : String).toList by simp]
  show s.toList.dropLast.dropLast ++ ['.', '$'] = s.toList
  rw [hdl]
  simpa using hpre

theorem pyStrip2_inj (a b : String) (ha : pyEndsWith a ".$" = true)
    (hb : pyEndsWith b ".$" = true) (h : pyStrip2 a = pyStrip2 b) :
    a = b := by
  rw [← pyEndsWith_strip_append a ha, ← pyEndsWith_strip_append b hb, h]

theorem pyStrip2_ne_self (a : String) (ha : pyEndsWith a ".$" = true)
    (hp : pyEndsWith (pyStrip2 a) ".$" = false) : pyStrip2 a ≠ a := by
  intro h
  rw [h] at hp
  rw [ha] at hp
  exact Bool.noConfusion hp

theorem dget_dremove_other {V : Type} (d : List (String × V)) (k a : String)
    (h : k ≠ a) : dget (dremove d k) a = dget d a := by
  induction d with
  | nil => rfl
  | cons hd tl ih =>
    obtain ⟨k', v'⟩ := hd
    by_cases hk : k' = k
    · subst hk
      simp [dremove, dget, fun hc : k' = a => h hc]
    · simp [dremove, dget, hk, ih]

theorem dkeys_dremove_sublist {V : Type} (d : List (String × V))
    (k : String) : (dkeys (dremove d k)).Sublist (dkeys d) := by
  induction d with
  | nil => simp [dremove, dkeys]
  | cons hd tl ih =>
    obtain ⟨k', v'⟩ := hd
    by_cases hk : k' = k
    · simp only [dremove, if_pos hk, dkeys, List.map_cons]
      exact List.sublist_cons_of_sublist k' (List.Sublist.refl _)
    · simp only [dremove, if_neg hk, dkeys, List.map_cons]
      exact List.Sublist.cons₂ k' ih

theorem nodup_dkeys_dremove {V : Type} (d : List (String × V)) (k : String)
    (h : (dkeys d).Nodup) : (dkeys (dremove d k)).Nodup :=
  h.sublist (dkeys_dremove_sublist d k)

theorem substituteOne_foldl_nop (key : String) (val : JVal)
    (kwargs : List (String × JVal)) (acc : List (String × JVal))
    (h : ∀ kw ∈ kwargs, val.eqStr ("$." ++ kw.1) = false) :
    kwargs.foldl (substituteOne key val) acc = acc := by
  induction kwargs generalizing acc with
  | nil => rfl
  | cons kw tl ih =>
    rw [List.foldl_cons, show substituteOne key val acc kw = acc from by
      simp [substituteOne, h kw (by simp)]]
    exact ih _ (fun kw2 hkw2 => h kw2 (by simp [hkw2]))

theorem substituteOne_foldl_dget_other (key : String) (val : JVal)
    (kwargs : List (String × JVal)) (acc : List (String × JVal))
    (c : String) (h1 : c ≠ key) (h2 : c ≠ pyStrip2 key) :
    dget (kwargs.foldl (substituteOne key val) acc) c = dget acc c := by
  induction kwargs generalizing acc with
  | nil => rfl
  | cons kw tl ih =>
    rw [List.foldl_cons, ih]
    by_cases hm : val.eqStr ("$." ++ kw.1)
    · simp only [substituteOne, if_pos hm]
      rw [dget_dinsert, if_neg (fun hc => h2 hc.symm),
        dget_dremove_other _ _ _ (fun hc => h1 hc.symm)]
    · simp [substituteOne, hm]

theorem substituteOne_foldl_nodup (key : String) (val : JVal)
    (kwargs : List (String × JVal)) (acc : List (String × JVal))
    (h : (dkeys acc).Nodup) :
    (dkeys (kwargs.foldl (substituteOne key val) acc)).Nodup := by
  induction kwargs generalizing acc with
  | nil => exact h
  | cons kw tl ih =>
    rw [List.foldl_cons]
    refine ih _ ?_
    by_cases hm : val.eqStr ("$." ++ kw.1)
    · simp only [substituteOne, if_pos hm]
      exact nodup_dkeys_dinsert _ _ _ (nodup_dkeys_dremove _ _ h)
    · simpa [substituteOne, hm] using h

theorem substituteOne_foldl_act (key : String) (k₀ : String) (v : JVal)
    (c1 c2 : List (String × JVal)) (acc : List (String × JVal))
    (h1 : ∀ kw ∈ c1, kw.1 ≠ k₀) (h2 : ∀ kw ∈ c2, kw.1 ≠ k₀) :
    (c1 ++ (k₀, v) :: c2).foldl
      (substituteOne key (JVal.s ("$." ++ k₀))) acc =
      dinsert (dremove acc key) (pyStrip2 key) v := by
  have hne : ∀ (kw : String × JVal), kw.1 ≠ k₀ →
      (JVal.s ("$." ++ k₀)).eqStr ("$." ++ kw.1) = false := by
    intro kw hkw
    simp only [JVal.eqStr, beq_eq_false_iff_ne, ne_eq]
    intro hc
    exact hkw (string_append_left_cancel "$." k₀ kw.1 hc).symm
  rw [List.foldl_append, substituteOne_foldl_nop _ _ c1 _
    (fun kw hkw => hne kw (h1 kw hkw)), List.foldl_cons]
  rw [show substituteOne key (JVal.s ("$." ++ k₀)) acc (k₀, v) =
      dinsert (dremove acc key) (pyStrip2 key) v from by
    simp [substituteOne, JVal.eqStr]]
  exact substituteOne_foldl_nop _ _ c2 _
    (fun kw hkw => hne kw (h2 kw hkw))

theorem substituteKey_dget_preserved (kwargs : List (String × JVal))
    (acc : List (String × JVal)) (item : String × JVal) (c : String)
    (hcond : pyEndsWith item.1 ".$" = true →
      item.1 ≠ c ∧ pyStrip2 item.1 ≠ c) :
    dget (substituteKey kwargs acc item) c = dget acc c := by
  by_cases he : pyEndsWith item.1 ".$"
  · obtain ⟨hne1, hne2⟩ := hcond he
    simp only [substituteKey, if_pos he]
    exact substituteOne_foldl_dget_other _ _ _ _ c
      (fun hc => hne1 hc.symm) (fun hc => hne2 hc.symm)
  · simp [substituteKey, he]

theorem substituteKey_foldl_dget_preserved (kwargs : List (String × JVal))
    (items : List (String × JVal)) (acc : List (String × JVal))
    (c : String)
    (hcond : ∀ item ∈ items, pyEndsWith item.1 ".$" = true →
      item.1 ≠ c ∧ pyStrip2 item.1 ≠ c) :
    dget (items.foldl (substituteKey kwargs) acc) c = dget acc c := by
  induction items generalizing acc with
  | nil => rfl
  | cons item tl ih =>
    rw [List.foldl_cons, ih _ (fun it hit => hcond it (by simp [hit])),
      substituteKey_dget_preserved kwargs acc item c
        (hcond item (by simp))]

theorem substituteKey_nodup (kwargs : List (String × JVal))
    (acc : List (String × JVal)) (item : String × JVal)
    (h : (dkeys acc).Nodup) :
    (dkeys (substituteKey kwargs acc item)).Nodup := by
  by_cases he : pyEndsWith item.1 ".$"
  · simp only [substituteKey, if_pos he]
    exact substituteOne_foldl_nodup _ _ _ _ h
  · simpa [substituteKey, he] using h

theorem substituteKey_foldl_nodup (kwargs : List (String × JVal))
    (items : List (String × JVal)) (acc : List (String × JVal))
    (h : (dkeys acc).Nodup) :
    (dkeys (items.foldl (substituteKey kwargs) acc)).Nodup := by
  induction items generalizing acc with
  | nil => exact h
  | cons item tl ih =>
    rw [List.foldl_cons]
    exact ih _ (substituteKey_nodup kwargs acc item h)

/-- Counterexample for C6: with overlapping marker keys the later
substitution removes the key the earlier one produced.  On the
dictionary `{"a.$.$": "$.x", "a.$": "$.y"}` with context
`{x: "X", y: "Y"}` the claim says the key `"a.$.$"` is replaced by the
plain key `"a.$"` holding `"X"`; the code instead ends with
`{"a": "Y"}`, where `"a.$"` is absent. -/
theorem replace_parameters_overlapping_marker_cex :
    ¬ (dget (replaceInvocationParameters
        ⟨none, "arn", [("a.$.$", JVal.s "$.x"), ("a.$", JVal.s "$.y")]⟩
        [("x", JVal.s "X"), ("y", JVal.s "Y")]).parameters "a.$" =
      some (JVal.s "X")) := by
  have h : dget (replaceInvocationParameters
      ⟨none, "arn", [("a.$.$", JVal.s "$.x"), ("a.$", JVal.s "$.y")]⟩
      [("x", JVal.s "X"), ("y", JVal.s "Y")]).parameters "a.$" = none := rfl
  rw [h]
  simp

/-- C6 (amended): parameter substitution.  For a parameter dictionary
(distinct keys) and a substitution context (distinct names), every key
`K` ending in the marker suffix `".$"` whose string value is `"$." ++ k`
for a name `k` bound to `v` in the context is replaced by the plain key
(suffix stripped) holding the literal bound value — provided the marker
keys do not overlap: the stripped key must not itself carry the marker
suffix, and no other marker key of the dictionary may strip to `K`. -/
theorem replace_invocation_parameters_marker_substitution
    (ws : WorkflowInvocationSettings) (kwargs : List (String × JVal))
    (K k₀ : String) (v : JVal)
    (hp : (dkeys ws.parameters).Nodup)
    (hc : (dkeys kwargs).Nodup)
    (hK : (K, JVal.s ("$." ++ k₀)) ∈ ws.parameters)
    (hkv : (k₀, v) ∈ kwargs)
    (hKs : pyEndsWith K ".$" = true)
    (hplain : pyEndsWith (pyStrip2 K) ".$" = false)
    (hnoalias : ∀ L ∈ dkeys ws.parameters, pyEndsWith L ".$" = true →
      pyStrip2 L ≠ K) :
    dget (replaceInvocationParameters ws kwargs).parameters
      (pyStrip2 K) = some v ∧
    dget (replaceInvocationParameters ws kwargs).parameters K = none := by
  obtain ⟨c1, c2, hcsplit⟩ := List.append_of_mem hkv
  have hckeys : (c1.map Prod.fst ++ k₀ :: c2.map Prod.fst).Nodup := by
    rw [hcsplit] at hc
    simpa [dkeys] using hc
  have hc1 : ∀ kw ∈ c1, kw.1 ≠ k₀ := by
    intro kw hkw heq
    exact (List.disjoint_of_nodup_append hckeys)
      (heq ▸ List.mem_map_of_mem Prod.fst hkw) (List.mem_cons_self k₀ _)
  have hc2 : ∀ kw ∈ c2, kw.1 ≠ k₀ := by
    intro kw hkw heq
    exact (List.nodup_cons.mp (List.nodup_append.mp hckeys).2.1).1
      (heq ▸ List.mem_map_of_mem Prod.fst hkw)
  obtain ⟨l1, l2, hsplit⟩ := List.append_of_mem hK
  have hpkeys : (l1.map Prod.fst ++ K :: l2.map Prod.fst).Nodup := by
    rw [hsplit] at hp
    simpa [dkeys] using hp
  have hK2 : K ∉ l2.map Prod.fst :=
    (List.nodup_cons.mp (List.nodup_append.mp hpkeys).2.1).1
  have hmemkeys : ∀ item ∈ l2, item.1 ∈ dkeys ws.parameters := by
    intro item hitem
    rw [hsplit]
    simp only [dkeys, List.map_append, List.map_cons, List.mem_append,
      List.mem_cons]
    exact Or.inr (Or.inr (List.mem_map_of_mem Prod.fst hitem))
  have hKne : pyStrip2 K ≠ K := pyStrip2_ne_self K hKs hplain
  have hcondK : ∀ item ∈ l2, pyEndsWith item.1 ".$" = true →
      item.1 ≠ K ∧ pyStrip2 item.1 ≠ K := by
    intro item hitem hends
    refine ⟨?_, hnoalias item.1 (hmemkeys item hitem) hends⟩
    intro heq
    exact hK2 (heq ▸ List.mem_map_of_mem Prod.fst hitem)
  have hcondP : ∀ item ∈ l2, pyEndsWith item.1 ".$" = true →
      item.1 ≠ pyStrip2 K ∧ pyStrip2 item.1 ≠ pyStrip2 K := by
    intro item hitem hends
    constructor
    · intro heq
      rw [heq] at hends
      rw [hplain] at hends
      exact Bool.noConfusion hends
    · intro heq
      have hik : item.1 = K := pyStrip2_inj item.1 K hends hKs heq
      exact hK2 (hik ▸ List.mem_map_of_mem Prod.fst hitem)
  have hp' : (dkeys ws.parameters).Nodup := hp
  simp only [replaceInvocationParameters]
  rw [hsplit] at hp' ⊢
  rw [List.foldl_append, List.foldl_cons]
  have hnodacc1 : (dkeys (l1.foldl (substituteKey kwargs)
      (l1 ++ (K, JVal.s ("$." ++ k₀)) :: l2))).Nodup :=
    substituteKey_foldl_nodup kwargs l1 _ hp'
  have hstep : substituteKey kwargs
      (l1.foldl (substituteKey kwargs)
        (l1 ++ (K, JVal.s ("$." ++ k₀)) :: l2))
      (K, JVal.s ("$." ++ k₀)) =
      dinsert (dremove (l1.foldl (substituteKey kwargs)
        (l1 ++ (K, JVal.s ("$." ++ k₀)) :: l2)) K) (pyStrip2 K) v := by
    show (if pyEndsWith K ".$" = true then _ else _) = _
    rw [if_pos hKs, hcsplit]
    exact substituteOne_foldl_act K k₀ v c1 c2 _ hc1 hc2
  constructor
  · rw [substituteKey_foldl_dget_preserved kwargs l2 _ (pyStrip2 K) hcondP,
      hstep, dget_dinsert, if_pos rfl]
  · rw [substituteKey_foldl_dget_preserved kwargs l2 _ K hcondK, hstep,
      dget_dinsert, if_neg hKne, dget_dremove _ _ _ hnodacc1, if_pos rfl]

/-- Witness for C6 (amended) at the claim's example:
`{"path.$": "$.matching_path_list"}` with context
`{matching_path_list: ["p1","p2"]}` yields `{"path": ["p1","p2"]}`. -/
theorem replace_invocation_parameters_marker_substitution_witness :
    dget (replaceInvocationParameters
      ⟨none, "arn", [("path.$", JVal.s "$.matching_path_list")]⟩
      [("matching_path_list", JVal.arr [JVal.s "p1", JVal.s "p2"])]).parameters
      "path" = some (JVal.arr [JVal.s "p1", JVal.s "p2"]) ∧
    dget (replaceInvocationParameters
      ⟨none, "arn", [("path.$", JVal.s "$.matching_path_list")]⟩
      [("matching_path_list", JVal.arr [JVal.s "p1", JVal.s "p2"])]).parameters
      "path.$" = none := by
  have h := replace_invocation_parameters_marker_substitution
    ⟨none, "arn", [("path.$", JVal.s "$.matching_path_list")]⟩
    [("matching_path_list", JVal.arr [JVal.s "p1", JVal.s "p2"])]
    "path.$" "matching_path_list" (JVal.arr [JVal.s "p1", JVal.s "p2"])
    (by decide) (by decide)
    (by exact List.mem_cons_self _ _)
    (by exact List.mem_cons_self _ _) rfl rfl
    (by
      intro L hL hends
      have hL' : L = "path.$" := by simpa [dkeys] using hL
      subst hL'
      decide)
  exact ⟨by rw [show pyStrip2 "path.$" = "path" from rfl] at h; exact h.1,
    h.2⟩

end Cdp
